import Mathlib

/-!
Shallow embedding of `scripts/validate_docstrings.py`, the Google-style
docstring checker: string primitives mirroring the Python `str` operations
and the two `re.search` patterns used by the script, the AST fragment the
script inspects, the `DocstringValidator` traversal with its mutable
error/warning lists modelled as explicit state, and the `main` driver.
-/

namespace ValidateDocstrings

/-- Python strings are modelled as lists of characters. -/
abbrev PyStr := List Char

/-- ASCII whitespace as recognised by Python's `str.strip` and `\s` in `re`
(space, tab, newline, carriage return, vertical tab, form feed). -/
def isPySpace (c : Char) : Bool :=
  c = ' ' || c = '\t' || c = '\n' || c = '\r' || c = '\x0b' || c = '\x0c'

/-- Python `str.strip()`: drop leading and trailing whitespace. -/
def pyStrip (s : PyStr) : PyStr :=
  ((s.dropWhile isPySpace).reverse.dropWhile isPySpace).reverse

/-- Python `str.split("\n")`: split into lines at every newline; the empty
string yields one empty line, and a trailing newline yields a final empty
line, exactly as in Python. -/
def pySplitLines : PyStr → List PyStr
  | [] => [[]]
  | c :: rest =>
    if c = '\n' then [] :: pySplitLines rest
    else
      match pySplitLines rest with
      | [] => [[c]]
      | l :: ls => (c :: l) :: ls

/-- Kind of a declaration-level diagnostic message produced by the script. -/
inductive DiagKind where
  /-- Message `Class {name} missing docstring`. -/
  | missingDocstringClass
  /-- Message `Function {name} missing docstring`. -/
  | missingDocstringFunction
  /-- Message `{name} - Docstring must start with summary line`. -/
  | missingSummary
  /-- Message `{name} - Missing 'Args:' section for function with arguments`. -/
  | missingArgs
  /-- Message `{name} - Argument '{arg}' not documented in Args section`. -/
  | argNotDocumented (arg : String)
  /-- Message `{name} - Missing 'Returns:' section for function with return statement`. -/
  | missingReturns
deriving DecidableEq, Repr

/-- One collected diagnostic.  Declaration-level diagnostics carry the file
path, line number and qualified name interpolated into the message; a parse
failure produces a file-level entry (`{filepath}: Syntax error - ...`). -/
inductive Diag where
  | decl (filepath : String) (lineno : Nat) (qualName : String) (kind : DiagKind)
  | fileSyntaxError (filepath : String)
deriving DecidableEq, Repr

/-- The validator's mutable state: the `errors` and `warnings` lists of
`DocstringValidator`, appended to in program order. -/
structure VState where
  errors : List Diag
  warnings : List Diag
deriving DecidableEq, Repr

def VState.addError (st : VState) (d : Diag) : VState :=
  { st with errors := st.errors ++ [d] }

def VState.addWarning (st : VState) (d : Diag) : VState :=
  { st with warnings := st.warnings ++ [d] }

/-- The fields of `ast.arguments` the script can observe.  `args` is the list
of plain positional parameter names (`node.args.args`); the remaining fields
exist on the Python object but are never read by the script. -/
structure Arguments where
  posonlyargs : List String
  args : List String
  vararg : Option String
  kwonlyargs : List String
  kwarg : Option String
deriving DecidableEq, Repr

/-- The fragment of the Python AST the script inspects.  `functionDef`
subsumes `ast.FunctionDef` and `ast.AsyncFunctionDef`, which every use site
treats identically (they always appear together in one `isinstance` tuple).
The docstring is modelled as an attribute holding the cleaned text that
`ast.get_docstring` would return (`none` when there is no docstring
expression).  `stmt` stands for any other statement or expression node,
which has no `name` attribute but may have children (`if`/`for`/`try`/
`with` bodies and the like). -/
inductive Node where
  | module (body : List Node)
  | classDef (name : String) (lineno : Nat) (docstring : Option PyStr) (body : List Node)
  | functionDef (name : String) (lineno : Nat) (ags : Arguments)
      (docstring : Option PyStr) (body : List Node)
  | ret (hasValue : Bool)
  | stmt (children : List Node)

/-- Model of `ast.iter_child_nodes`: the direct children of a node. -/
def Node.children : Node → List Node
  | .module b => b
  | .classDef _ _ _ b => b
  | .functionDef _ _ _ _ b => b
  | .ret _ => []
  | .stmt b => b

/-- Whether the node has a `name` attribute (`hasattr(node, "name")`):
among the modelled nodes, exactly classes and functions do. -/
def Node.hasName : Node → Bool
  | .classDef .. => true
  | .functionDef .. => true
  | _ => false

/-- The `name` attribute of a class or function node (irrelevant default
for nodes without one, guarded by `Node.hasName` at every use site). -/
def Node.nodeName : Node → String
  | .classDef nm _ _ _ => nm
  | .functionDef nm _ _ _ _ => nm
  | _ => ""

mutual

/-- Model of `ast.walk(node)`: the node together with all of its descendants
(the source enumerates them breadth-first; only membership is ever used,
so the preorder listing is an equivalent embedding). -/
def walk : Node → List Node
  | .module b => .module b :: walkList b
  | .classDef nm ln d b => .classDef nm ln d b :: walkList b
  | .functionDef nm ln a d b => .functionDef nm ln a d b :: walkList b
  | .ret hv => [.ret hv]
  | .stmt b => .stmt b :: walkList b

def walkList : List Node → List Node
  | [] => []
  | n :: ns => walk n ++ walkList ns

end

/-- Test `isinstance(child, ast.Return) and child.value is not None`. -/
def isValueReturn : Node → Bool
  | .ret hv => hv
  | _ => false

/-- Model of `DocstringValidator._has_return_statement`: scan `ast.walk(node)` for a
return statement carrying a value. -/
def hasReturnStatement (n : Node) : Bool :=
  (walk n).any isValueReturn

/-- The suffixes of `s` after each newline: with `s` itself these are all
positions where `^` can match under `re.MULTILINE`. -/
def lineStartSuffixesAux : PyStr → List PyStr
  | [] => []
  | c :: rest =>
    if c = '\n' then rest :: lineStartSuffixesAux rest
    else lineStartSuffixesAux rest

/-- All suffixes of `s` starting at a line start (`re.MULTILINE` anchors). -/
def lineStartSuffixes (s : PyStr) : List PyStr :=
  s :: lineStartSuffixesAux s

/-- The trailing `\s*$` of the header patterns: after optional whitespace the
match position must sit at an end of line (before a `\n` or at the end of
the string).  With backtracking this succeeds exactly when the leading
whitespace run contains a newline or the whole remainder is whitespace. -/
def wsThenEol (s : PyStr) : Bool :=
  (s.takeWhile isPySpace).contains '\n' || (s.dropWhile isPySpace).isEmpty

/-- Match `\s*{hdr}\s*$` at one anchor position (the header text starts with
a non-whitespace character, so the greedy whitespace drop is exact). -/
def matchHeaderAt (hdr : PyStr) (s : PyStr) : Bool :=
  let s1 := s.dropWhile isPySpace
  hdr.isPrefixOf s1 && wsThenEol (s1.drop hdr.length)

/-- Embeds `re.search(r"^\s*{hdr}\s*$", doc, re.MULTILINE)` for a fixed header. -/
def searchHeader (hdr : PyStr) (doc : PyStr) : Bool :=
  (lineStartSuffixes doc).any (matchHeaderAt hdr)

/-- The `\(.*?\):` tail of the per-argument pattern: scan within the current
line (`.` does not match a newline) for `)` immediately followed by `:`. -/
def findParenColon : PyStr → Bool
  | ')' :: ':' :: _ => true
  | '\n' :: _ => false
  | _ :: rest => findParenColon rest
  | [] => false

/-- Match `\s*{arg}\s*\(.*?\):` at one anchor position (argument names are
identifiers, so they begin with a non-whitespace character and the greedy
whitespace drops are exact). -/
def matchArgAt (arg : PyStr) (s : PyStr) : Bool :=
  let s1 := s.dropWhile isPySpace
  arg.isPrefixOf s1 &&
    match ((s1.drop arg.length).dropWhile isPySpace) with
    | '(' :: rest => findParenColon rest
    | _ => false

/-- Embeds `re.search(rf"^\s*{arg}\s*\(.*?\):", doc, re.MULTILINE)`. -/
def searchArgDoc (arg : PyStr) (doc : PyStr) : Bool :=
  (lineStartSuffixes doc).any (matchArgAt arg)

/-- Python `s.startswith(pre)`, as a prefix test on the character data. -/
def pyStartsWith (pre s : String) : Bool :=
  pre.data.isPrefixOf s.data

/-- The `full_name` computed inside `_validate_class` and
`_validate_function`: `f"{parent_name}.{node.name}" if parent_name else
node.name`. -/
def fullNameOf (parent nm : String) : String :=
  if parent = "" then nm else parent ++ "." ++ nm

/-- Model of `DocstringValidator._validate_docstring_format`.  The docstring is known
to be present here; `args` is already the list the caller computed (the
Python default `None` is normalised to `[]` on entry).  The final
`Attributes:` check of the source is a no-op (`pass` on both branches). -/
def validateDocstringFormat (st : VState) (doc : PyStr) (name : String)
    (filepath : String) (lineno : Nat) (isClass : Bool) (args : List String)
    (hasReturn : Bool) : VState :=
  let lines := pySplitLines (pyStrip doc)
  let st1 :=
    match lines with
    | [] => st.addError (.decl filepath lineno name .missingSummary)
    | l :: _ =>
      if (pyStrip l).isEmpty then
        st.addError (.decl filepath lineno name .missingSummary)
      else st
  let st2 :=
    if !args.isEmpty && !isClass then
      if !searchHeader "Args:".data doc then
        st1.addError (.decl filepath lineno name .missingArgs)
      else
        args.foldl (fun s a =>
          if !searchArgDoc a.data doc then
            s.addWarning (.decl filepath lineno name (.argNotDocumented a))
          else s) st1
    else st1
  if hasReturn && !isClass then
    if !searchHeader "Returns:".data doc then
      st2.addWarning (.decl filepath lineno name .missingReturns)
    else st2
  else st2

/-- Truthiness test `if not docstring:` — `ast.get_docstring` returned `None` or the
cleaned docstring is the empty string. -/
def docstringFalsy : Option PyStr → Bool
  | none => true
  | some s => s.isEmpty

/-- Model of `DocstringValidator._validate_class`. -/
def validateClass (st : VState) (nm : String) (lineno : Nat)
    (docstring : Option PyStr) (filepath : String) (parentName : String) : VState :=
  if pyStartsWith "_" nm then st
  else
    let fullName := fullNameOf parentName nm
    match docstring with
    | none => st.addError (.decl filepath lineno fullName .missingDocstringClass)
    | some s =>
      if s.isEmpty then
        st.addError (.decl filepath lineno fullName .missingDocstringClass)
      else
        validateDocstringFormat st s fullName filepath lineno true [] false

/-- Line 152 of the script: `[arg.arg for arg in node.args.args if arg.arg
not in ("self", "cls")]`. -/
def functionArgsOf (ags : Arguments) : List String :=
  ags.args.filter (fun a => !(a == "self") && !(a == "cls"))

/-- The body of `_validate_function` after its early-return name guard:
docstring-presence check, argument-list computation and format validation. -/
def validateFunctionRetained (st : VState) (nm : String) (lineno : Nat)
    (ags : Arguments) (docstring : Option PyStr) (body : List Node)
    (filepath : String) (parentName : String) : VState :=
  let fullName := fullNameOf parentName nm
  match docstring with
  | none => st.addError (.decl filepath lineno fullName .missingDocstringFunction)
  | some s =>
    if s.isEmpty then
      st.addError (.decl filepath lineno fullName .missingDocstringFunction)
    else
      let args := functionArgsOf ags
      let hasReturn := hasReturnStatement (.functionDef nm lineno ags docstring body)
      validateDocstringFormat st s fullName filepath lineno false args hasReturn

/-- Model of `DocstringValidator._validate_function`: skip private functions and
special methods other than `__init__` and `__post_init__`, then validate. -/
def validateFunction (st : VState) (nm : String) (lineno : Nat)
    (ags : Arguments) (docstring : Option PyStr) (body : List Node)
    (filepath : String) (parentName : String) : VState :=
  if pyStartsWith "_" nm && !(nm == "__init__") && !(nm == "__post_init__") then st
  else validateFunctionRetained st nm lineno ags docstring body filepath parentName

mutual

/-- Model of `DocstringValidator._visit_node`: validate classes and functions, then
recurse into all children with `child_parent = f"{parent_name}.{node.name}"
if hasattr(node, "name") else parent_name` (note the unconditional dot, even
when `parent_name` is empty). -/
def visitNode (st : VState) (n : Node) (filepath : String) (parentName : String) : VState :=
  match n with
  | .module b => visitChildren st b filepath parentName
  | .classDef nm ln d b =>
    let st1 := validateClass st nm ln d filepath parentName
    visitChildren st1 b filepath (parentName ++ "." ++ nm)
  | .functionDef nm ln a d b =>
    let st1 := validateFunction st nm ln a d b filepath parentName
    visitChildren st1 b filepath (parentName ++ "." ++ nm)
  | .ret _ => st
  | .stmt b => visitChildren st b filepath parentName

def visitChildren (st : VState) (ns : List Node) (filepath : String) (parentName : String) : VState :=
  match ns with
  | [] => st
  | n :: rest => visitChildren (visitNode st n filepath parentName) rest filepath parentName

end

/-- The outcome of reading and parsing one existing input file. -/
inductive ParseResult where
  /-- Parsing raised `SyntaxError`. -/
  | unparsable
  /-- the parsed module tree -/
  | parsed (tree : Node)

/-- Model of `DocstringValidator.validate_file` on an existing file: on success the
whole tree is visited and the return value reports whether the validator's
accumulated error list (across all files so far) is empty; a parse failure
appends exactly one file-level error and returns `False`. -/
def validateFile (st : VState) (filepath : String) (pr : ParseResult) : Bool × VState :=
  match pr with
  | .parsed tree =>
    let st1 := visitNode st tree filepath ""
    (st1.errors.length == 0, st1)
  | .unparsable => (false, st.addError (.fileSyntaxError filepath))

/-- The observable identity of a CLI path argument: `filepath.name` and
`filepath.parts` of the `Path`, plus the string form used in messages. -/
structure PyPath where
  name : String
  parts : List String
  display : String
deriving DecidableEq, Repr

/-- What the file system holds at an input path. -/
inductive FileContent where
  | missing
  | present (pr : ParseResult)

/-- One CLI argument together with what the file system resolves it to. -/
structure InputFile where
  path : PyPath
  content : FileContent

/-- Python's substring test `needle in haystack`. -/
def pyInStr (needle : PyStr) : PyStr → Bool
  | [] => needle.isEmpty
  | c :: rest => needle.isPrefixOf (c :: rest) || pyInStr needle rest

/-- The skip test of `main`: `"test_" in filepath.name or filepath.parts and
"tests" in filepath.parts`. -/
def shouldSkipPath (p : PyPath) : Bool :=
  pyInStr "test_".data p.name.data || (!p.parts.isEmpty && p.parts.contains "tests")

/-- The file loop of `main`: skip test files, warn-and-continue on missing
files (stdout only — no diagnostic is collected), otherwise validate and
fold the returned flag into `all_valid`. -/
def processFiles (st : VState) (allValid : Bool) : List InputFile → Bool × VState
  | [] => (allValid, st)
  | f :: rest =>
    if shouldSkipPath f.path then processFiles st allValid rest
    else
      match f.content with
      | .missing => processFiles st allValid rest
      | .present pr =>
        let r := validateFile st f.path.display pr
        processFiles r.2 (allValid && r.1) rest

/-- Model of `main`: with no file arguments print usage and return 1; otherwise run
the loop and return 0 exactly when `all_valid` remained true.  The result
pairs the exit code with the final validator state. -/
def mainRun (files : List InputFile) : Nat × VState :=
  if files.isEmpty then (1, ⟨[], []⟩)
  else
    let r := processFiles ⟨[], []⟩ true files
    (if r.1 then 0 else 1, r.2)

/-- Recognise the `Missing 'Args:' section` error. -/
def Diag.isMissingArgs : Diag → Bool
  | .decl _ _ _ .missingArgs => true
  | _ => false

/-- Recognise an `Argument '...' not documented` warning. -/
def Diag.isArgWarning : Diag → Bool
  | .decl _ _ _ (.argNotDocumented _) => true
  | _ => false

/-- Recognise the `Missing 'Returns:' section` diagnostic. -/
def Diag.isMissingReturns : Diag → Bool
  | .decl _ _ _ .missingReturns => true
  | _ => false

/-- Recognise the `Docstring must start with summary line` error. -/
def Diag.isMissingSummary : Diag → Bool
  | .decl _ _ _ .missingSummary => true
  | _ => false

/-- The spec-side reading of the section-header checks: the docstring has a
line consisting solely of the header, modulo surrounding whitespace. -/
def hasHeaderLine (hdr : PyStr) (doc : PyStr) : Bool :=
  (pySplitLines doc).any (fun l => pyStrip l == hdr)

mutual

/-- Modelled from C4's words: scan a statement for a return-with-value,
recursing into nested blocks but not into the bodies of nested function
definitions. -/
def ownBodyValueReturn : Node → Bool
  | .ret hv => hv
  | .functionDef _ _ _ _ _ => false
  | .module b => ownBodyValueReturnList b
  | .classDef _ _ _ b => ownBodyValueReturnList b
  | .stmt b => ownBodyValueReturnList b

def ownBodyValueReturnList : List Node → Bool
  | [] => false
  | n :: ns => ownBodyValueReturn n || ownBodyValueReturnList ns

end

/-- Modelled from C4's words: `has_value_return` as the claim describes it —
the function's own statement body contains a return-with-value, nested
blocks included, nested function bodies excluded. -/
def claimHasValueReturn : Node → Bool
  | .functionDef _ _ _ _ b => ownBodyValueReturnList b
  | _ => false

mutual

/-- Spec-side restatement for the amended C4: a return statement with a
value anywhere in the node's subtree, nested function bodies included. -/
def subtreeValueReturn : Node → Bool
  | .ret hv => hv
  | .module b => subtreeValueReturnList b
  | .classDef _ _ _ b => subtreeValueReturnList b
  | .functionDef _ _ _ _ b => subtreeValueReturnList b
  | .stmt b => subtreeValueReturnList b

def subtreeValueReturnList : List Node → Bool
  | [] => false
  | n :: ns => subtreeValueReturn n || subtreeValueReturnList ns

end

/-- An argument record with no parameters at all. -/
def noParams : Arguments := ⟨[], [], none, [], none⟩

/-- C4's failing input: `f` has no return of its own, but contains a nested
function `g` whose body is `return 1`. -/
def c4Fun : Node :=
  .functionDef "f" 1 noParams (some "Summary.".data)
    [.functionDef "g" 2 noParams none [.ret true]]

/-- C7's failing input: module with a documented top-level class `C` whose
method `m` (line 2) has no docstring. -/
def c7Tree : Node :=
  .module [.classDef "C" 1 (some "Summary.".data)
    [.functionDef "m" 2 ⟨[], ["self"], none, [], none⟩ none []]]

/-- A well-documented top-level function (the spec's `compute` scenario):
summary line, `Args:` section documenting both parameters, `Returns:`
section, and a `return x + y` body. -/
def computeTree : Node :=
  .module [.functionDef "compute" 1 ⟨[], ["x", "y"], none, [], none⟩
    (some "Adds two numbers.\n\nArgs:\n    x (int): first.\n    y (int): second.\n\nReturns:\n    int: sum.\n".data)
    [.ret true]]

/-- An input file holding the `compute` module, under a non-test path. -/
def computeFile : InputFile :=
  ⟨⟨"compute.py", ["compute.py"], "compute.py"⟩, .present (.parsed computeTree)⟩

/-- An unparsable input file under a non-test path. -/
def badFile : InputFile :=
  ⟨⟨"bad.py", ["bad.py"], "bad.py"⟩, .present .unparsable⟩

/-- State `s` extends `st` by appending zero or more errors and warnings: the
validator's lists are append-only. -/
def StExtends (st s : VState) : Prop :=
  ∃ e w, s = ⟨st.errors ++ e, st.warnings ++ w⟩

theorem stExtends_refl (st : VState) : StExtends st st :=
  ⟨[], [], by simp⟩

theorem stExtends_addError {st s : VState} (d : Diag) (h : StExtends st s) :
    StExtends st (s.addError d) := by
  obtain ⟨e, w, rfl⟩ := h
  exact ⟨e ++ [d], w, by simp [VState.addError]⟩

theorem stExtends_addWarning {st s : VState} (d : Diag) (h : StExtends st s) :
    StExtends st (s.addWarning d) := by
  obtain ⟨e, w, rfl⟩ := h
  exact ⟨e, w ++ [d], by simp [VState.addWarning]⟩

theorem stExtends_trans {st s t : VState} (h1 : StExtends st s) (h2 : StExtends s t) :
    StExtends st t := by
  obtain ⟨e1, w1, rfl⟩ := h1
  obtain ⟨e2, w2, rfl⟩ := h2
  exact ⟨e1 ++ e2, w1 ++ w2, by simp⟩

/-- The per-argument documentation loop only appends warnings. -/
theorem argFold_shape (doc : PyStr) (name filepath : String) (lineno : Nat)
    (args : List String) (s : VState) :
    ∃ w, args.foldl (fun s' a =>
        if !searchArgDoc a.data doc then
          s'.addWarning (.decl filepath lineno name (.argNotDocumented a))
        else s') s
      = ⟨s.errors, s.warnings ++ w⟩ := by
  induction args generalizing s with
  | nil => exact ⟨[], by simp⟩
  | cons a as ih =>
    simp only [List.foldl_cons]
    by_cases h : (!searchArgDoc a.data doc) = true
    · rw [if_pos h]
      obtain ⟨w, hw⟩ :=
        ih (s.addWarning (.decl filepath lineno name (.argNotDocumented a)))
      exact ⟨Diag.decl filepath lineno name (.argNotDocumented a) :: w, by
        rw [hw]; simp [VState.addWarning]⟩
    · rw [if_neg h]
      exact ih s

theorem stExtends_fold {st s : VState} (doc : PyStr) (name filepath : String)
    (lineno : Nat) (args : List String) (h : StExtends st s) :
    StExtends st (args.foldl (fun s' a =>
        if !searchArgDoc a.data doc then
          s'.addWarning (.decl filepath lineno name (.argNotDocumented a))
        else s') s) := by
  obtain ⟨w, hw⟩ := argFold_shape doc name filepath lineno args s
  refine stExtends_trans h ?_
  rw [hw]
  exact ⟨[], w, by simp⟩

theorem validateDocstringFormat_extends (st : VState) (doc : PyStr)
    (name filepath : String) (lineno : Nat) (isClass : Bool)
    (args : List String) (hasReturn : Bool) :
    StExtends st (validateDocstringFormat st doc name filepath lineno isClass args hasReturn) := by
  simp only [validateDocstringFormat]
  repeat' split
  all_goals
    solve_by_elim [stExtends_refl, stExtends_addError, stExtends_addWarning, stExtends_fold]

theorem validateClass_extends (st : VState) (nm : String) (lineno : Nat)
    (docstring : Option PyStr) (filepath parentName : String) :
    StExtends st (validateClass st nm lineno docstring filepath parentName) := by
  simp only [validateClass]
  repeat' split
  all_goals
    solve_by_elim [stExtends_refl, stExtends_addError, validateDocstringFormat_extends]

theorem validateFunction_extends (st : VState) (nm : String) (lineno : Nat)
    (ags : Arguments) (docstring : Option PyStr) (body : List Node)
    (filepath parentName : String) :
    StExtends st (validateFunction st nm lineno ags docstring body filepath parentName) := by
  simp only [validateFunction, validateFunctionRetained]
  repeat' split
  all_goals
    solve_by_elim [stExtends_refl, stExtends_addError, validateDocstringFormat_extends]

mutual

theorem visitNode_extends : ∀ (st : VState) (n : Node) (fp par : String),
    StExtends st (visitNode st n fp par)
  | st, .module b, fp, par => by
      simp only [visitNode]
      exact visitChildren_extends st b fp par
  | st, .classDef nm ln d b, fp, par => by
      simp only [visitNode]
      exact stExtends_trans (validateClass_extends st nm ln d fp par)
        (visitChildren_extends _ b fp (par ++ "." ++ nm))
  | st, .functionDef nm ln a d b, fp, par => by
      simp only [visitNode]
      exact stExtends_trans (validateFunction_extends st nm ln a d b fp par)
        (visitChildren_extends _ b fp (par ++ "." ++ nm))
  | st, .ret hv, fp, par => by
      simp only [visitNode]
      exact stExtends_refl st
  | st, .stmt b, fp, par => by
      simp only [visitNode]
      exact visitChildren_extends st b fp par

theorem visitChildren_extends : ∀ (st : VState) (ns : List Node) (fp par : String),
    StExtends st (visitChildren st ns fp par)
  | st, [], fp, par => by
      simp only [visitChildren]
      exact stExtends_refl st
  | st, n :: rest, fp, par => by
      simp only [visitChildren]
      exact stExtends_trans (visitNode_extends st n fp par)
        (visitChildren_extends _ rest fp par)

end

theorem length_beq_zero {α : Type _} (l : List α) : (l.length == 0) = l.isEmpty := by
  cases l <;> rfl

theorem validateFile_extends (st : VState) (fp : String) (pr : ParseResult) :
    StExtends st (validateFile st fp pr).2 := by
  cases pr with
  | parsed tree =>
    simp only [validateFile]
    exact visitNode_extends st tree fp ""
  | unparsable =>
    exact stExtends_addError _ (stExtends_refl st)

theorem validateFile_flag (st : VState) (fp : String) (pr : ParseResult) :
    (validateFile st fp pr).1 = (validateFile st fp pr).2.errors.isEmpty := by
  cases pr with
  | parsed tree => simp [validateFile, length_beq_zero]
  | unparsable => simp [validateFile, VState.addError]

theorem processFiles_extends :
    ∀ (fs : List InputFile) (st : VState) (acc : Bool),
      StExtends st (processFiles st acc fs).2
  | [], st, acc => stExtends_refl st
  | f :: rest, st, acc => by
      simp only [processFiles]
      split
      · exact processFiles_extends rest st acc
      · split
        · exact processFiles_extends rest st acc
        · exact stExtends_trans (validateFile_extends st f.path.display _)
            (processFiles_extends rest _ _)

theorem processFiles_flag :
    ∀ (fs : List InputFile) (st : VState) (acc : Bool),
      (acc = true → st.errors = []) →
      (processFiles st acc fs).1 = (acc && (processFiles st acc fs).2.errors.isEmpty)
  | [], st, acc, h => by
      cases acc with
      | false => simp [processFiles]
      | true => simp [processFiles, h rfl]
  | f :: rest, st, acc, h => by
      simp only [processFiles]
      split
      · exact processFiles_flag rest st acc h
      · split
        · exact processFiles_flag rest st acc h
        · rename_i pr hpr
          have hflag := validateFile_flag st f.path.display pr
          have h' : (acc && (validateFile st f.path.display pr).1) = true →
              (validateFile st f.path.display pr).2.errors = [] := by
            intro hb
            rw [Bool.and_eq_true] at hb
            have : (validateFile st f.path.display pr).1 = true := hb.2
            rw [hflag] at this
            exact List.isEmpty_iff.mp this
          rw [processFiles_flag rest _ _ h']
          obtain ⟨e, w, hext⟩ := processFiles_extends rest
            (validateFile st f.path.display pr).2 (acc && (validateFile st f.path.display pr).1)
          cases hF : (processFiles (validateFile st f.path.display pr).2
              (acc && (validateFile st f.path.display pr).1) rest).2.errors.isEmpty with
          | false => simp
          | true =>
            have hnil : (validateFile st f.path.display pr).2.errors = [] := by
              rw [hext] at hF
              simp only [VState.errors] at hF
              have := List.isEmpty_iff.mp hF
              exact List.append_eq_nil.mp this |>.1
            have : (validateFile st f.path.display pr).1 = true := by
              rw [hflag, hnil]; rfl
            simp [this]

mutual

theorem walk_any_eq_subtree : ∀ n : Node, (walk n).any isValueReturn = subtreeValueReturn n
  | .module b => by
      simp [walk, subtreeValueReturn, isValueReturn, walkList_any_eq_subtree b]
  | .classDef nm ln d b => by
      simp [walk, subtreeValueReturn, isValueReturn, walkList_any_eq_subtree b]
  | .functionDef nm ln a d b => by
      simp [walk, subtreeValueReturn, isValueReturn, walkList_any_eq_subtree b]
  | .ret hv => by
      simp [walk, subtreeValueReturn, isValueReturn]
  | .stmt b => by
      simp [walk, subtreeValueReturn, isValueReturn, walkList_any_eq_subtree b]

theorem walkList_any_eq_subtree :
    ∀ ns : List Node, (walkList ns).any isValueReturn = subtreeValueReturnList ns
  | [] => by simp [walkList, subtreeValueReturnList]
  | n :: ns => by
      simp [walkList, subtreeValueReturnList, List.any_append,
        walk_any_eq_subtree n, walkList_any_eq_subtree ns]

end

/-- C2: a retained declaration (class or function) without a docstring gets
exactly one `missing docstring` Error and nothing else: the resulting state
is the input state with that single error appended and no other change, so
no summary/Args/Returns/Attributes rule fires for it. -/
theorem c2_missing_docstring_exactly_one_error
    (st : VState) (filepath parent cnm fnm : String) (cln fln : Nat)
    (ags : Arguments) (body : List Node)
    (hc : pyStartsWith "_" cnm = false)
    (hf : (pyStartsWith "_" fnm && !(fnm == "__init__") && !(fnm == "__post_init__")) = false) :
    validateClass st cnm cln none filepath parent
      = st.addError (.decl filepath cln (fullNameOf parent cnm) .missingDocstringClass)
    ∧ validateFunction st fnm fln ags none body filepath parent
      = st.addError (.decl filepath fln (fullNameOf parent fnm) .missingDocstringFunction) := by
  constructor
  · simp [validateClass, hc]
  · simp [validateFunction, hf, validateFunctionRetained]

theorem c2_witness :
    validateClass ⟨[], []⟩ "Widget" 1 none "w.py" ""
      = VState.addError ⟨[], []⟩ (.decl "w.py" 1 "Widget" .missingDocstringClass)
    ∧ validateFunction ⟨[], []⟩ "render" 2 noParams none [] "w.py" ""
      = VState.addError ⟨[], []⟩ (.decl "w.py" 2 "render" .missingDocstringFunction) :=
  c2_missing_docstring_exactly_one_error ⟨[], []⟩ "w.py" "" "Widget" "render" 1 2
    noParams [] (by decide) (by decide)

/-- C6: a function whose name starts with an underscore and is not exactly
`__init__`/`__post_init__` is skipped outright (the state is returned
untouched, even with no docstring), while `__init__` and `__post_init__`
go through the full retained-function validation pipeline. -/
theorem c6_private_function_exclusion
    (st : VState) (nm : String) (ln : Nat) (ags : Arguments)
    (doc : Option PyStr) (body : List Node) (filepath parent : String) :
    (pyStartsWith "_" nm = true → nm ≠ "__init__" → nm ≠ "__post_init__" →
      validateFunction st nm ln ags doc body filepath parent = st)
    ∧ (nm = "__init__" ∨ nm = "__post_init__" →
      validateFunction st nm ln ags doc body filepath parent
        = validateFunctionRetained st nm ln ags doc body filepath parent) := by
  constructor
  · intro h1 h2 h3
    simp [validateFunction, h1, h2, h3]
  · rintro (rfl | rfl) <;> simp [validateFunction]

theorem c6_witness :
    validateFunction ⟨[], []⟩ "_internal" 5 noParams none [] "f.py" "" = ⟨[], []⟩
    ∧ validateFunction ⟨[], []⟩ "__init__" 7 noParams none [] "f.py" "C"
      = validateFunctionRetained ⟨[], []⟩ "__init__" 7 noParams none [] "f.py" "C" :=
  ⟨(c6_private_function_exclusion ⟨[], []⟩ "_internal" 5 noParams none [] "f.py" "").1
      (by decide) (by decide) (by decide),
   (c6_private_function_exclusion ⟨[], []⟩ "__init__" 7 noParams none [] "f.py" "C").2
      (Or.inl rfl)⟩

/-- C7: evaluating the traversal on a module holding a documented top-level
class `C` whose method `m` lacks a docstring.  The diagnostic's qualified
name is `.C.m`, with a leading dot — not the `C.m` the claim states —
because `_visit_node` builds `child_parent` as
`f"{parent_name}.{node.name}"` even when `parent_name` is empty. -/
theorem c7_qualified_name_evaluation :
    (visitNode ⟨[], []⟩ c7Tree "m.py" "").errors
      = [.decl "m.py" 2 ".C.m" .missingDocstringFunction] := by
  decide

/-- C4 counterexample: `f` contains no return of its own, only a nested
function `g` with `return 1`; the code's `has_value_return` is still true
because `ast.walk` descends into nested function bodies, refuting the
claim's "excluding the bodies of function definitions nested inside it". -/
theorem c4_counterexample :
    hasReturnStatement c4Fun = true ∧ claimHasValueReturn c4Fun = false :=
  ⟨rfl, rfl⟩

/-- C4 (amended): `has_value_return` is true exactly when the node's full
statement subtree — the bodies of nested function definitions included —
contains at least one return statement carrying a non-empty value. -/
theorem c4_amended_has_value_return (n : Node) :
    hasReturnStatement n = subtreeValueReturn n :=
  walk_any_eq_subtree n

/-- C8: a file whose source fails to parse yields exactly one file-level
syntax error (and no declaration diagnostics), and the driver's loop
continues with the remaining input paths. -/
theorem c8_parse_failure_isolated
    (st : VState) (acc : Bool) (f : InputFile) (rest : List InputFile)
    (hskip : shouldSkipPath f.path = false)
    (hpr : f.content = .present .unparsable) :
    validateFile st f.path.display .unparsable
      = (false, st.addError (.fileSyntaxError f.path.display))
    ∧ processFiles st acc (f :: rest)
      = processFiles (st.addError (.fileSyntaxError f.path.display)) false rest := by
  refine ⟨rfl, ?_⟩
  simp [processFiles, hskip, hpr, validateFile]

theorem countP_errors_addError (st : VState) (d : Diag) (p : Diag → Bool) :
    ((st.addError d).errors).countP p
      = st.errors.countP p + (if p d then 1 else 0) := by
  simp [VState.addError, List.countP_append, List.countP_cons]

theorem countP_warnings_addWarning (st : VState) (d : Diag) (p : Diag → Bool) :
    ((st.addWarning d).warnings).countP p
      = st.warnings.countP p + (if p d then 1 else 0) := by
  simp [VState.addWarning, List.countP_append, List.countP_cons]

theorem argFold_errors (doc : PyStr) (name filepath : String) (lineno : Nat)
    (args : List String) (s : VState) :
    (args.foldl (fun s' a =>
        if !searchArgDoc a.data doc then
          s'.addWarning (.decl filepath lineno name (.argNotDocumented a))
        else s') s).errors = s.errors := by
  obtain ⟨w, hw⟩ := argFold_shape doc name filepath lineno args s
  rw [hw]

/-- Every warning the per-argument loop appends is an `argNotDocumented`
entry, so any other warning kind is counted unchanged. -/
theorem argFold_warnings_countP (doc : PyStr) (name filepath : String) (lineno : Nat)
    (args : List String) (s : VState) (q : Diag → Bool)
    (hq : ∀ a, q (.decl filepath lineno name (.argNotDocumented a)) = false) :
    ((args.foldl (fun s' a =>
        if !searchArgDoc a.data doc then
          s'.addWarning (.decl filepath lineno name (.argNotDocumented a))
        else s') s).warnings).countP q = s.warnings.countP q := by
  induction args generalizing s with
  | nil => rfl
  | cons a as ih =>
    simp only [List.foldl_cons]
    by_cases h : (!searchArgDoc a.data doc) = true
    · rw [if_pos h, ih, countP_warnings_addWarning, hq a]
      simp
    · rw [if_neg h, ih]

theorem pySplitLines_ne_nil (l : PyStr) : pySplitLines l ≠ [] := by
  match l with
  | [] => simp [pySplitLines]
  | c :: rest =>
    by_cases h : c = '\n'
    · simp [pySplitLines, h]
    · have := pySplitLines_ne_nil rest
      simp only [pySplitLines, if_neg h]
      cases hr : pySplitLines rest with
      | nil => exact absurd hr this
      | cons t ts => simp

theorem pySplitLines_cons_of_ne (c : Char) (l : PyStr) (h : ¬ c = '\n') :
    ∃ t ts, pySplitLines (c :: l) = (c :: t) :: ts ∧ pySplitLines l = t :: ts := by
  cases hr : pySplitLines l with
  | nil => exact absurd hr (pySplitLines_ne_nil l)
  | cons t ts =>
    refine ⟨t, ts, ?_, rfl⟩
    simp [pySplitLines, if_neg h, hr]

theorem rdropWhile_cons_of_neg (p : Char → Bool) (c : Char) (l : PyStr)
    (h : p c = false) :
    List.rdropWhile p (c :: l) = c :: List.rdropWhile p l := by
  unfold List.rdropWhile
  rw [List.reverse_cons, List.dropWhile_append]
  cases hE : (List.dropWhile p l.reverse).isEmpty with
  | true =>
    rw [List.isEmpty_iff] at hE
    simp [hE, List.dropWhile, h]
  | false => simp

theorem pyStrip_eq_rdropWhile (s : PyStr) :
    pyStrip s = List.rdropWhile isPySpace (s.dropWhile isPySpace) := rfl

theorem pyStrip_cons_of_nonspace (c : Char) (l : PyStr) (h : isPySpace c = false) :
    pyStrip (c :: l) = c :: List.rdropWhile isPySpace l := by
  rw [pyStrip_eq_rdropWhile]
  rw [List.dropWhile_cons_of_neg (by rw [h]; exact Bool.false_ne_true)]
  exact rdropWhile_cons_of_neg _ c l h

theorem dropWhile_head_false (p : Char → Bool) :
    ∀ (l : PyStr) (c : Char) (rest : PyStr),
      List.dropWhile p l = c :: rest → p c = false
  | [], c, rest, h => by simp [List.dropWhile] at h
  | a :: as, c, rest, h => by
      rw [List.dropWhile_cons] at h
      by_cases hpa : p a = true
      · rw [if_pos hpa] at h
        exact dropWhile_head_false p as c rest h
      · rw [if_neg hpa] at h
        cases h
        cases hb : p a with
        | false => rfl
        | true => exact absurd hb hpa

/-- A string containing at least one non-whitespace character strips to a
string starting with its first non-whitespace character. -/
theorem pyStrip_of_exists_nonspace (doc : PyStr)
    (h : ∃ c ∈ doc, isPySpace c = false) :
    ∃ c rest, pyStrip doc = c :: rest ∧ isPySpace c = false := by
  have hd : List.dropWhile isPySpace doc ≠ [] := by
    intro hnil
    obtain ⟨c, hc, hcs⟩ := h
    have := List.dropWhile_eq_nil_iff.mp hnil c hc
    rw [hcs] at this
    exact Bool.false_ne_true this
  cases hdw : List.dropWhile isPySpace doc with
  | nil => exact absurd hdw hd
  | cons c rest =>
    have hhead := dropWhile_head_false isPySpace doc c rest hdw
    refine ⟨c, List.rdropWhile isPySpace rest, ?_, hhead⟩
    rw [pyStrip_eq_rdropWhile, hdw]
    exact rdropWhile_cons_of_neg _ c rest hhead

/-- Variant of `argFold_errors` in the normal form produced by `simp`. -/
theorem argFold_errors_nf (doc : PyStr) (name filepath : String) (lineno : Nat)
    (args : List String) (s : VState) :
    (List.foldl (fun s' a =>
        if searchArgDoc a.data doc = false then
          { errors := s'.errors,
            warnings := s'.warnings ++ [Diag.decl filepath lineno name (DiagKind.argNotDocumented a)] }
        else s') s args).errors = s.errors := by
  induction args generalizing s with
  | nil => rfl
  | cons a as ih =>
    simp only [List.foldl_cons]
    split
    · exact ih _
    · exact ih s

theorem isPySpace_newline : isPySpace '\n' = true := rfl

theorem pyStrip_cons_isEmpty_false (c : Char) (l : PyStr) (h : isPySpace c = false) :
    (pyStrip (c :: l)).isEmpty = false := by
  rw [pyStrip_cons_of_nonspace c l h]
  rfl

/-- Once a docstring with at least one non-whitespace character reaches the
format check, no `Docstring must start with summary line` error is added:
stripping guarantees the first examined line is non-blank. -/
theorem validateDocstringFormat_summary_countP
    (st : VState) (doc : PyStr) (name filepath : String) (lineno : Nat)
    (isClass : Bool) (args : List String) (hasReturn : Bool)
    (h : ∃ c ∈ doc, isPySpace c = false) :
    ((validateDocstringFormat st doc name filepath lineno isClass args
        hasReturn).errors).countP Diag.isMissingSummary
      = st.errors.countP Diag.isMissingSummary := by
  obtain ⟨c, rest, hstrip, hcs⟩ := pyStrip_of_exists_nonspace doc h
  have hcn : ¬ c = '\n' := by
    intro hceq
    rw [hceq] at hcs
    exact absurd hcs (by decide)
  obtain ⟨t, ts, hsplit, hrest⟩ := pySplitLines_cons_of_ne c rest hcn
  have hempty := pyStrip_cons_isEmpty_false c t hcs
  simp only [validateDocstringFormat, hstrip, hsplit, hempty, Bool.false_eq_true, if_false]
  repeat' split
  all_goals
    simp [VState.addError, VState.addWarning, List.countP_append, List.countP_cons,
      Diag.isMissingSummary, argFold_errors_nf]

/-- C9: for a declaration (class or function) whose docstring is present and
contains at least one non-whitespace character, the `Docstring must start
with summary line` error is never emitted — the docstring is stripped before
being split, so the first examined line is always non-blank. -/
theorem c9_summary_error_unreachable
    (st : VState) (s : PyStr) (cnm fnm : String) (cln fln : Nat)
    (ags : Arguments) (body : List Node) (filepath parent : String)
    (h : ∃ c ∈ s, isPySpace c = false) :
    ((validateClass st cnm cln (some s) filepath parent).errors).countP
        Diag.isMissingSummary
      = st.errors.countP Diag.isMissingSummary
    ∧ ((validateFunction st fnm fln ags (some s) body filepath parent).errors).countP
        Diag.isMissingSummary
      = st.errors.countP Diag.isMissingSummary := by
  have hne : s.isEmpty = false := by
    obtain ⟨c, hc, _⟩ := h
    cases s with
    | nil => cases hc
    | cons a as => rfl
  constructor
  · simp only [validateClass]
    split
    · rfl
    · rw [if_neg (by simp [hne])]
      exact validateDocstringFormat_summary_countP st s _ filepath cln true [] false h
  · simp only [validateFunction, validateFunctionRetained]
    split
    · rfl
    · rw [if_neg (by simp [hne])]
      exact validateDocstringFormat_summary_countP st s _ filepath fln false _ _ h

theorem c9_witness :
    ((validateClass ⟨[], []⟩ "Widget" 1 (some "  Summary.  ".data) "w.py" "").errors).countP
        Diag.isMissingSummary = 0
    ∧ ((validateFunction ⟨[], []⟩ "render" 2 noParams (some "  Summary.  ".data) []
        "w.py" "Widget").errors).countP Diag.isMissingSummary = 0 :=
  c9_summary_error_unreachable ⟨[], []⟩ "  Summary.  ".data "Widget" "render" 1 2
    noParams [] "w.py" "" (by decide)

/-- C1 counterexample: invoked with an empty list of file paths, `main`
prints a usage message and returns exit status 1 although zero errors were
collected, so "exit status 0 iff zero errors" fails on that input. -/
theorem c1_counterexample :
    (mainRun []).1 = 1 ∧ (mainRun []).2.errors = [] :=
  ⟨rfl, rfl⟩

/-- C1 (amended): for every run over a non-empty list of file paths, the
exit status is 0 if and only if the number of collected errors is 0; the
warning list plays no part in the equivalence. -/
theorem c1_amended_exit_status (files : List InputFile) (h : files ≠ []) :
    (mainRun files).1 = 0 ↔ (mainRun files).2.errors = [] := by
  have hne : files.isEmpty = false := by
    cases files with
    | nil => exact absurd rfl h
    | cons f fs => rfl
  have hflag := processFiles_flag files ⟨[], []⟩ true (fun _ => rfl)
  rw [Bool.true_and] at hflag
  cases hE : (processFiles ⟨[], []⟩ true files).2.errors.isEmpty with
  | true =>
    rw [hE] at hflag
    simp [mainRun, hne, hflag, List.isEmpty_iff.mp hE]
  | false =>
    rw [hE] at hflag
    have hneq : (processFiles ⟨[], []⟩ true files).2.errors ≠ [] := by
      intro hh
      rw [hh] at hE
      simp at hE
    simp [mainRun, hne, hflag, hneq]

theorem c1_witness :
    (mainRun [computeFile]).1 = 0 ↔ (mainRun [computeFile]).2.errors = [] :=
  c1_amended_exit_status [computeFile] (by simp)

/-- With an empty argument list the Args block of the format check is
skipped entirely: no `missing Args` error and no per-argument warning. -/
theorem vdf_countP_args_nil (st : VState) (doc : PyStr) (name filepath : String)
    (lineno : Nat) (isClass : Bool) (hasReturn : Bool) :
    ((validateDocstringFormat st doc name filepath lineno isClass [] hasReturn).errors).countP
        Diag.isMissingArgs
      = st.errors.countP Diag.isMissingArgs
    ∧ ((validateDocstringFormat st doc name filepath lineno isClass [] hasReturn).warnings).countP
        Diag.isArgWarning
      = st.warnings.countP Diag.isArgWarning := by
  constructor <;>
  · simp only [validateDocstringFormat]
    repeat' split
    all_goals
      simp_all [VState.addError, VState.addWarning, List.countP_append, List.countP_cons,
        Diag.isMissingArgs, Diag.isArgWarning]

/-- C10: the parameter list handed to the rule engine is exactly the plain
positional parameter names with every `self`/`cls` occurrence removed; it
ignores positional-only, keyword-only, `*args` and `**kwargs` entries, and
a function whose computed list is empty triggers no `missing Args` error
and no per-argument warning. -/
theorem c10_parameter_list
    (st : VState) (nm : String) (ln : Nat) (ags ags2 : Arguments)
    (doc : Option PyStr) (body : List Node) (filepath parent : String)
    (hsame : ags.args = ags2.args) :
    functionArgsOf ags = ags.args.filter (fun a => !(a == "self") && !(a == "cls"))
    ∧ functionArgsOf ags = functionArgsOf ags2
    ∧ (functionArgsOf ags = [] →
        ((validateFunction st nm ln ags doc body filepath parent).errors).countP
            Diag.isMissingArgs
          = st.errors.countP Diag.isMissingArgs
        ∧ ((validateFunction st nm ln ags doc body filepath parent).warnings).countP
            Diag.isArgWarning
          = st.warnings.countP Diag.isArgWarning) := by
  refine ⟨rfl, by simp [functionArgsOf, hsame], ?_⟩
  intro hnil
  constructor
  · simp only [validateFunction]
    split
    · rfl
    · cases doc with
      | none =>
        simp only [validateFunctionRetained]
        rw [countP_errors_addError]
        simp [Diag.isMissingArgs]
      | some s =>
        simp only [validateFunctionRetained]
        by_cases hs : List.isEmpty s = true
        · rw [if_pos hs, countP_errors_addError]
          simp [Diag.isMissingArgs]
        · rw [if_neg hs, hnil]
          exact (vdf_countP_args_nil st s _ filepath ln false _).1
  · simp only [validateFunction]
    split
    · rfl
    · cases doc with
      | none => rfl
      | some s =>
        simp only [validateFunctionRetained]
        by_cases hs : List.isEmpty s = true
        · rw [if_pos hs]
          rfl
        · rw [if_neg hs, hnil]
          exact (vdf_countP_args_nil st s _ filepath ln false _).2

theorem c10_witness :
    functionArgsOf ⟨["p"], ["self"], some "extra", ["options"], some "kw"⟩ = []
    ∧ ((validateFunction ⟨[], []⟩ "update" 3 ⟨["p"], ["self"], some "extra", ["options"], some "kw"⟩
        (some "Update.".data) [] "f.py" "C").errors).countP Diag.isMissingArgs = 0
    ∧ ((validateFunction ⟨[], []⟩ "update" 3 ⟨["p"], ["self"], some "extra", ["options"], some "kw"⟩
        (some "Update.".data) [] "f.py" "C").warnings).countP Diag.isArgWarning = 0 :=
  ⟨by decide,
    (c10_parameter_list ⟨[], []⟩ "update" 3
      ⟨["p"], ["self"], some "extra", ["options"], some "kw"⟩
      ⟨[], ["self"], none, [], none⟩
      (some "Update.".data) [] "f.py" "C" rfl).2.2 (by decide)⟩

theorem c8_witness :
    validateFile ⟨[], []⟩ "bad.py" .unparsable
      = (false, VState.addError ⟨[], []⟩ (.fileSyntaxError "bad.py"))
    ∧ processFiles ⟨[], []⟩ true [badFile, computeFile]
      = processFiles (VState.addError ⟨[], []⟩ (.fileSyntaxError "bad.py")) false [computeFile] :=
  c8_parse_failure_isolated ⟨[], []⟩ true badFile [computeFile] (by decide) rfl

theorem isPrefixOf_eq_append : ∀ (u v : PyStr), u.isPrefixOf v = true → ∃ t, v = u ++ t
  | [], v, _ => ⟨v, rfl⟩
  | _ :: _, [], h => by simp [List.isPrefixOf] at h
  | a :: u', b :: v', h => by
      simp only [List.isPrefixOf, Bool.and_eq_true] at h
      obtain ⟨hab, h'⟩ := h
      obtain rfl : a = b := beq_iff_eq.mp hab
      obtain ⟨t, ht⟩ := isPrefixOf_eq_append u' v' h'
      exact ⟨t, by rw [ht, List.cons_append]⟩

theorem pyStrip_cons_space (c : Char) (l : PyStr) (h : isPySpace c = true) :
    pyStrip (c :: l) = pyStrip l := by
  unfold pyStrip
  rw [List.dropWhile_cons_of_pos h]

theorem rdropWhile_append_all (p : Char → Bool) (u : PyStr) (w : PyStr)
    (hall : ∀ x ∈ w, p x = true) :
    List.rdropWhile p (u ++ w) = List.rdropWhile p u := by
  induction w using List.reverseRecOn with
  | nil => simp
  | append_singleton w' x ih =>
    rw [← List.append_assoc]
    rw [List.rdropWhile_concat_pos _ _ x (hall x (by simp))]
    exact ih (fun y hy => hall y (by simp [hy]))

theorem pyStrip_header_pad (h0 : Char) (hr u w : PyStr) (x : Char)
    (hh0 : isPySpace h0 = false) (hlast : h0 :: hr = u ++ [x])
    (hx : isPySpace x = false) (hw : ∀ y ∈ w, isPySpace y = true) :
    pyStrip ((h0 :: hr) ++ w) = h0 :: hr := by
  rw [pyStrip_eq_rdropWhile]
  rw [List.cons_append, List.dropWhile_cons_of_neg (by simp [hh0]), ← List.cons_append]
  rw [rdropWhile_append_all _ _ w hw]
  rw [hlast]
  exact List.rdropWhile_concat_neg _ _ x (by simp [hx])

theorem matchHeaderAt_cons_space (hdr : PyStr) (c : Char) (s : PyStr)
    (h : isPySpace c = true) :
    matchHeaderAt hdr (c :: s) = matchHeaderAt hdr s := by
  simp only [matchHeaderAt]
  rw [List.dropWhile_cons_of_pos h]

theorem lineStartSuffixesAux_mem :
    ∀ (doc s : PyStr), s ∈ lineStartSuffixesAux doc → ∃ pre, doc = pre ++ '\n' :: s
  | [], s, h => by simp [lineStartSuffixesAux] at h
  | c :: rest, s, h => by
      by_cases hc : c = '\n'
      · rw [lineStartSuffixesAux, if_pos hc] at h
        rcases List.mem_cons.mp h with rfl | h'
        · exact ⟨[], by rw [hc]; rfl⟩
        · obtain ⟨pre, hpre⟩ := lineStartSuffixesAux_mem rest s h'
          exact ⟨c :: pre, by simp [hpre]⟩
      · rw [lineStartSuffixesAux, if_neg hc] at h
        obtain ⟨pre, hpre⟩ := lineStartSuffixesAux_mem rest s h
        exact ⟨c :: pre, by simp [hpre]⟩

theorem pySplitLines_append_no_nl :
    ∀ (u v : PyStr), (∀ c ∈ u, ¬ c = '\n') →
      ∃ t ts, pySplitLines (u ++ v) = (u ++ t) :: ts ∧ pySplitLines v = t :: ts
  | [], v, _ => by
      cases hv : pySplitLines v with
      | nil => exact absurd hv (pySplitLines_ne_nil v)
      | cons t ts => exact ⟨t, ts, by simp [hv], rfl⟩
  | c :: u', v, h => by
      have hc : ¬ c = '\n' := h c (by simp)
      obtain ⟨t, ts, h1, h2⟩ :=
        pySplitLines_append_no_nl u' v (fun y hy => h y (by simp [hy]))
      refine ⟨t, ts, ?_, h2⟩
      rw [List.cons_append]
      simp [pySplitLines, hc, h1]

theorem pySplitLines_newline_suffix :
    ∀ (pre s : PyStr), ∃ L, L ≠ [] ∧ pySplitLines (pre ++ '\n' :: s) = L ++ pySplitLines s
  | [], s => ⟨[[]], by simp, by simp [pySplitLines]⟩
  | c :: pre', s => by
      obtain ⟨L, hne, hL⟩ := pySplitLines_newline_suffix pre' s
      by_cases hc : c = '\n'
      · refine ⟨[] :: L, by simp, ?_⟩
        rw [List.cons_append, hc]
        simp [pySplitLines, hL]
      · cases L with
        | nil => exact absurd rfl hne
        | cons l0 L2 =>
          refine ⟨(c :: l0) :: L2, by simp, ?_⟩
          rw [List.cons_append]
          have hx : pySplitLines (pre' ++ '\n' :: s) = l0 :: (L2 ++ pySplitLines s) := by
            simp [hL]
          simp [pySplitLines, hc, hx]

theorem wsThenEol_first_line :
    ∀ (t t0 : PyStr) (ts : List PyStr), wsThenEol t = true →
      pySplitLines t = t0 :: ts → ∀ x ∈ t0, isPySpace x = true
  | [], t0, ts, _, hsplit => by
      have hq : pySplitLines ([] : PyStr) = [[]] := rfl
      rw [hq] at hsplit
      injection hsplit with h1 h2
      intro x hx
      rw [← h1] at hx
      cases hx
  | c :: t', t0, ts, hws, hsplit => by
      cases hpc : isPySpace c with
      | false =>
        exfalso
        unfold wsThenEol at hws
        rw [List.takeWhile_cons_of_neg (by simp [hpc]),
          List.dropWhile_cons_of_neg (by simp [hpc])] at hws
        simp at hws
      | true =>
        by_cases hc : c = '\n'
        · have hq : pySplitLines (c :: t') = [] :: pySplitLines t' := by
            simp [pySplitLines, hc]
          rw [hq] at hsplit
          injection hsplit with h1 h2
          intro x hx
          rw [← h1] at hx
          cases hx
        · have hws' : wsThenEol t' = true := by
            unfold wsThenEol at hws ⊢
            rw [List.takeWhile_cons_of_pos (by simp [hpc]),
              List.dropWhile_cons_of_pos (by simp [hpc])] at hws
            rw [List.contains_cons] at hws
            have hbeq : ('\n' == c) = false :=
              beq_eq_false_iff_ne.mpr (fun hh => hc hh.symm)
            rw [hbeq] at hws
            simpa using hws
          obtain ⟨l, ls, heq, hrest⟩ := pySplitLines_cons_of_ne c t' hc
          rw [heq] at hsplit
          injection hsplit with h1 h2
          subst h1
          intro y hy
          rcases List.mem_cons.mp hy with rfl | hy'
          · exact hpc
          · exact wsThenEol_first_line t' l ls hws' hrest y hy'

/-- If the header pattern matches at one anchor, some line of the scanned
text strips to exactly the header (the header starts and ends with
non-whitespace characters and contains no newline). -/
theorem matchHeaderAt_line (h0 : Char) (hr u : PyStr) (x : Char)
    (hh0 : isPySpace h0 = false) (hnl : ∀ c ∈ h0 :: hr, ¬ c = '\n')
    (hlast : h0 :: hr = u ++ [x]) (hx : isPySpace x = false) :
    ∀ (s : PyStr), matchHeaderAt (h0 :: hr) s = true →
      ∃ l ∈ pySplitLines s, pyStrip l = h0 :: hr
  | [], h => by
      exfalso
      simp only [matchHeaderAt] at h
      simp [List.isPrefixOf, List.dropWhile] at h
  | c :: s', h => by
      cases hpc : isPySpace c with
      | true =>
        rw [matchHeaderAt_cons_space _ c s' hpc] at h
        obtain ⟨l, hl, hstrip⟩ := matchHeaderAt_line h0 hr u x hh0 hnl hlast hx s' h
        by_cases hc : c = '\n'
        · refine ⟨l, ?_, hstrip⟩
          have hq : pySplitLines (c :: s') = [] :: pySplitLines s' := by
            simp [pySplitLines, hc]
          rw [hq]
          exact List.mem_cons_of_mem _ hl
        · obtain ⟨t, ts, heq, hrest⟩ := pySplitLines_cons_of_ne c s' hc
          rw [hrest] at hl
          rcases List.mem_cons.mp hl with rfl | hl'
          · refine ⟨c :: l, ?_, ?_⟩
            · rw [heq]
              exact List.mem_cons_self _ _
            · rw [pyStrip_cons_space c l hpc]
              exact hstrip
          · refine ⟨l, ?_, hstrip⟩
            rw [heq]
            exact List.mem_cons_of_mem _ hl'
      | false =>
        simp only [matchHeaderAt, Bool.and_eq_true] at h
        rw [List.dropWhile_cons_of_neg (by simp [hpc])] at h
        obtain ⟨hpre, hws⟩ := h
        obtain ⟨t, ht⟩ := isPrefixOf_eq_append (h0 :: hr) (c :: s') hpre
        rw [ht, List.drop_left] at hws
        obtain ⟨t0, ts0, hsp, hspt⟩ := pySplitLines_append_no_nl (h0 :: hr) t hnl
        have ht0 : ∀ y ∈ t0, isPySpace y = true := wsThenEol_first_line t t0 ts0 hws hspt
        refine ⟨(h0 :: hr) ++ t0, ?_, ?_⟩
        · rw [ht, hsp]
          exact List.mem_cons_self _ _
        · exact pyStrip_header_pad h0 hr u t0 x hh0 hlast hx ht0

/-- If `re.search(r"^\s*{hdr}\s*$", doc, re.MULTILINE)` succeeds, then some
line of `doc` strips to exactly the header. -/
theorem searchHeader_line (h0 : Char) (hr u : PyStr) (x : Char) (doc : PyStr)
    (hh0 : isPySpace h0 = false) (hnl : ∀ c ∈ h0 :: hr, ¬ c = '\n')
    (hlast : h0 :: hr = u ++ [x]) (hx : isPySpace x = false)
    (h : searchHeader (h0 :: hr) doc = true) :
    ∃ l ∈ pySplitLines doc, pyStrip l = h0 :: hr := by
  simp only [searchHeader, lineStartSuffixes, List.any_cons, Bool.or_eq_true] at h
  rcases h with hdoc | hmem
  · exact matchHeaderAt_line h0 hr u x hh0 hnl hlast hx doc hdoc
  · rw [List.any_eq_true] at hmem
    obtain ⟨s, hs, hms⟩ := hmem
    obtain ⟨pre, hpre⟩ := lineStartSuffixesAux_mem doc s hs
    obtain ⟨l, hl, hstrip⟩ := matchHeaderAt_line h0 hr u x hh0 hnl hlast hx s hms
    obtain ⟨L, _, hL⟩ := pySplitLines_newline_suffix pre s
    refine ⟨l, ?_, hstrip⟩
    rw [hpre, hL]
    exact List.mem_append_right L hl

/-- Contrapositive of `searchHeader_line`: a docstring with no line that
strips to the header is rejected by the regex search. -/
theorem hasHeaderLine_false_search (h0 : Char) (hr u : PyStr) (x : Char) (doc : PyStr)
    (hh0 : isPySpace h0 = false) (hnl : ∀ c ∈ h0 :: hr, ¬ c = '\n')
    (hlast : h0 :: hr = u ++ [x]) (hx : isPySpace x = false)
    (hno : hasHeaderLine (h0 :: hr) doc = false) :
    searchHeader (h0 :: hr) doc = false := by
  cases hsb : searchHeader (h0 :: hr) doc with
  | false => rfl
  | true =>
    exfalso
    obtain ⟨l, hl, hstrip⟩ := searchHeader_line h0 hr u x doc hh0 hnl hlast hx hsb
    have hT : hasHeaderLine (h0 :: hr) doc = true := by
      unfold hasHeaderLine
      rw [List.any_eq_true]
      exact ⟨l, hl, beq_iff_eq.mpr hstrip⟩
    rw [hT] at hno
    cases hno

/-- Variant of `argFold_warnings_countP` in the normal form produced by
`simp`: the loop only appends `argNotDocumented` warnings, so any other
warning kind keeps its count. -/
theorem argFold_warnings_countP_nf (doc : PyStr) (name filepath : String) (lineno : Nat)
    (args : List String) (s : VState) (q : Diag → Bool)
    (hq : ∀ a, q (Diag.decl filepath lineno name (DiagKind.argNotDocumented a)) = false) :
    (List.foldl (fun s' a =>
        if searchArgDoc a.data doc = false then
          { errors := s'.errors,
            warnings := s'.warnings ++ [Diag.decl filepath lineno name (DiagKind.argNotDocumented a)] }
        else s') s args).warnings.countP q = s.warnings.countP q := by
  induction args generalizing s with
  | nil => rfl
  | cons a as ih =>
    simp only [List.foldl_cons]
    split
    · rw [ih]
      simp [List.countP_append, List.countP_cons, hq a]
    · rw [ih]

/-- C3: a validated function with a non-empty computed parameter list whose
docstring has no line consisting solely of `Args:` (modulo surrounding
whitespace) receives exactly one `Missing 'Args:' section` error, and no
per-parameter `not documented` warning is emitted for it — regardless of
parameter names appearing as substrings elsewhere in the docstring. -/
theorem c3_missing_args_section
    (st : VState) (nm : String) (ln : Nat) (ags : Arguments) (s : PyStr)
    (body : List Node) (filepath parent : String)
    (hkeep : (pyStartsWith "_" nm && !(nm == "__init__") && !(nm == "__post_init__")) = false)
    (hs : s.isEmpty = false)
    (hargs : functionArgsOf ags ≠ [])
    (hno : hasHeaderLine "Args:".data s = false) :
    ((validateFunction st nm ln ags (some s) body filepath parent).errors).countP
        Diag.isMissingArgs
      = st.errors.countP Diag.isMissingArgs + 1
    ∧ ((validateFunction st nm ln ags (some s) body filepath parent).warnings).countP
        Diag.isArgWarning
      = st.warnings.countP Diag.isArgWarning := by
  have hsearch : searchHeader "Args:".data s = false :=
    hasHeaderLine_false_search 'A' "rgs:".data "Args".data ':' s
      (by decide) (by decide) rfl (by decide) hno
  have hne : (functionArgsOf ags).isEmpty = false := by
    cases hh : functionArgsOf ags with
    | nil => exact absurd hh hargs
    | cons a as => rfl
  constructor <;>
  · simp only [validateFunction]
    rw [if_neg (by simp [hkeep])]
    simp only [validateFunctionRetained]
    rw [if_neg (by simp [hs])]
    simp only [validateDocstringFormat]
    repeat' split
    all_goals
      simp_all [VState.addError, VState.addWarning, List.countP_append, List.countP_cons,
        Diag.isMissingArgs, Diag.isArgWarning]

theorem c3_witness :
    ((validateFunction ⟨[], []⟩ "render" 2 ⟨[], ["self", "scale"], none, [], none⟩
        (some "Render the widget.".data) [] "w.py" "Widget").errors).countP
        Diag.isMissingArgs = 1
    ∧ ((validateFunction ⟨[], []⟩ "render" 2 ⟨[], ["self", "scale"], none, [], none⟩
        (some "Render the widget.".data) [] "w.py" "Widget").warnings).countP
        Diag.isArgWarning = 0 :=
  c3_missing_args_section ⟨[], []⟩ "render" 2 ⟨[], ["self", "scale"], none, [], none⟩
    "Render the widget.".data [] "w.py" "Widget"
    (by decide) (by decide) (by decide) (by decide)

/-- C5: a validated function whose body has a return-with-value and whose
docstring has no line consisting solely of `Returns:` (modulo surrounding
whitespace) receives exactly one `Missing 'Returns:' section` warning, and
this condition adds nothing to the error list. -/
theorem c5_missing_returns_warning
    (st : VState) (nm : String) (ln : Nat) (ags : Arguments) (s : PyStr)
    (body : List Node) (filepath parent : String)
    (hkeep : (pyStartsWith "_" nm && !(nm == "__init__") && !(nm == "__post_init__")) = false)
    (hs : s.isEmpty = false)
    (hret : hasReturnStatement (.functionDef nm ln ags (some s) body) = true)
    (hno : hasHeaderLine "Returns:".data s = false) :
    ((validateFunction st nm ln ags (some s) body filepath parent).warnings).countP
        Diag.isMissingReturns
      = st.warnings.countP Diag.isMissingReturns + 1
    ∧ ((validateFunction st nm ln ags (some s) body filepath parent).errors).countP
        Diag.isMissingReturns
      = st.errors.countP Diag.isMissingReturns := by
  have hsearch : searchHeader "Returns:".data s = false :=
    hasHeaderLine_false_search 'R' "eturns:".data "Returns".data ':' s
      (by decide) (by decide) rfl (by decide) hno
  constructor <;>
  · simp only [validateFunction]
    rw [if_neg (by simp [hkeep])]
    simp only [validateFunctionRetained]
    rw [if_neg (by simp [hs])]
    simp only [validateDocstringFormat]
    repeat' split
    all_goals
      simp_all [VState.addError, VState.addWarning, List.countP_append, List.countP_cons,
        Diag.isMissingReturns, argFold_errors_nf, argFold_warnings_countP_nf]

theorem c5_witness :
    ((validateFunction ⟨[], []⟩ "compute" 1 noParams
        (some "Compute the value.".data) [.ret true] "m.py" "").warnings).countP
        Diag.isMissingReturns = 1
    ∧ ((validateFunction ⟨[], []⟩ "compute" 1 noParams
        (some "Compute the value.".data) [.ret true] "m.py" "").errors).countP
        Diag.isMissingReturns = 0 :=
  c5_missing_returns_warning ⟨[], []⟩ "compute" 1 noParams
    "Compute the value.".data [.ret true] "m.py" ""
    (by decide) (by decide) rfl (by decide)

end ValidateDocstrings

